import Mathlib

/-!
Verification of two EasyBuild easyblocks against their natural-language
specification:

* `src/easybuild/easyblocks/n/neuron.py` — class `EB_NEURON (CMakeMake)`
* `src/easybuild/easyblocks/generic/juliabundle.py` — class `JuliaBundle (Bundle)`

The Python code is shallowly embedded: each overridden lifecycle-hook method
becomes a pure Lean function over explicit state; shell commands are modelled
by their observable result (exit code and captured output) passed as input;
raising `EasyBuildError` is modelled with `Except`.
-/

namespace EasyBlocks

/-! ### Python-value and helper model -/

/-- Python truthiness of an optional string: `None` and the empty string are falsy,
any non-empty string is truthy (`if interviews_root:` etc.). -/
def pyTruthy : Option String → Bool
  | none => false
  | some s => !s.isEmpty

/-- Whitespace characters matched by the regex class `\s`
(Python `re`: space, tab, newline, carriage return, vertical tab, form feed). -/
def isWs (c : Char) : Bool :=
  c = ' ' || c = '\t' || c = '\n' || c = '\r' || c = '\x0b' || c = '\x0c'

/-- Model of `posixpath.join` restricted to two components, on character lists:
an absolute second component replaces the first; otherwise the parts are
glued with `/` unless the first is empty or already ends in `/`. -/
def pathJoinAux (a b : List Char) : List Char :=
  if b.head? = some '/' then b
  else if a = [] || a.getLast? = some '/' then a ++ b
  else a ++ '/' :: b

/-- Model of `os.path.join` for two path components (POSIX semantics). -/
def pathJoin (a b : String) : String :=
  ⟨pathJoinAux a.data b.data⟩

/-- Model of `posixpath.dirname` on character lists: everything up to the last `/`,
with trailing slashes stripped unless the head is all slashes. -/
def dirnameAux (cs : List Char) : List Char :=
  let headRev := cs.reverse.dropWhile (fun c => c ≠ '/')
  if headRev = [] then []
  else if headRev.all (fun c => c = '/') then headRev.reverse
  else ((headRev.dropWhile (fun c => c = '/')).reverse)

/-- Model of `os.path.dirname` (POSIX semantics). -/
def dirname (s : String) : String :=
  ⟨dirnameAux s.data⟩

/-! ### EB_NEURON.configure_step (neuron.py lines 63-92)

The configuration object is modelled by the fields `configure_step` reads or
writes, plus an untouched rest (`otherCfg`) used for the frame property.
`self.cfg.update(configopts, x)` appends one chunk to the option list.
The roots returned by `get_software_root(InterViews)` / `(Python)` and the
result of `det_pylibdir()` are inputs of the step. -/

structure NeuronState where
  paranrn : Bool
  configopts : List String
  with_python : Bool
  pylibdir : String
  installdir : String
  otherCfg : List (String × String)
  deriving Repr, DecidableEq

/-- Embedding of `EB_NEURON.configure_step` up to the delegation to
`CMakeMake.configure_step` (the parent call only consumes the state built
here). Follows neuron.py lines 63-92 statement by statement. -/
def neuron_configure_step (st : NeuronState)
    (interviews_root python_root : Option String) (det_pylibdir : String) :
    NeuronState :=
  -- if self.cfg[paranrn]: update ON else update OFF
  let st := if st.paranrn then
      { st with configopts := st.configopts ++ ["-DNRN_ENABLE_MPI=ON"] }
    else
      { st with configopts := st.configopts ++ ["-DNRN_ENABLE_MPI=OFF"] }
  -- if interviews_root:
  let st := if pyTruthy interviews_root then
      { st with configopts := st.configopts ++
          ["-DIV_DIR=" ++ interviews_root.getD "" ++ " -DNRN_ENABLE_INTERVIEWS=ON"] }
    else
      { st with configopts := st.configopts ++ ["-DNRN_ENABLE_INTERVIEWS=OFF"] }
  -- if python_root:
  let st := if pyTruthy python_root then
      { st with
        with_python := true,
        configopts := st.configopts ++
          ["-DNRN_ENABLE_PYTHON=ON -DPYTHON_EXECUTABLE=" ++ python_root.getD "" ++ "/bin/python",
           "-DNRN_ENABLE_MODULE_INSTALL=ON -DNRN_MODULE_INSTALL_OPTIONS=\x27--prefix="
             ++ st.installdir ++ "\x27"] }
    else
      { st with configopts := st.configopts ++ ["-DNRN_ENABLE_PYTHON=OFF"] }
  -- self.pylibdir = det_pylibdir()
  { st with pylibdir := det_pylibdir }

/-! ### LooseVersion (easybuild.tools.LooseVersion, external dependency)

Modelled for the dot-separated numeric version strings this easyblock
compares (`LooseVersion(self.version) < LooseVersion(8)`): the string is
split on `.`, components compare numerically, and component lists compare
like Python lists (a strict prefix is smaller). -/

/-- Helper of `pySplitDot`: split the remaining characters at every dot,
`acc` holding the reversed current component. -/
def pySplitDotAux : List Char → List Char → List String
  | [], acc => [⟨acc.reverse⟩]
  | '.' :: rest, acc => ⟨acc.reverse⟩ :: pySplitDotAux rest []
  | c :: rest, acc => pySplitDotAux rest (c :: acc)

/-- Embedding of the Python call `s.split(.)`: the dot-separated components,
a single empty component for the empty string, empty components kept. -/
def pySplitDot (s : String) : List String :=
  pySplitDotAux s.data []

/-- Numeric components of a dot-separated version string. -/
def versionComponents (s : String) : List Nat :=
  (pySplitDot s).map (fun c => c.toNat?.getD 0)

/-- Python ordering on lists of numbers: lexicographic, strict prefix smaller. -/
def listLtNat : List Nat → List Nat → Bool
  | [], [] => false
  | [], _ :: _ => true
  | _ :: _, [] => false
  | a :: as, b :: bs => a < b || (a = b && listLtNat as bs)

/-- Comparison `LooseVersion(a) < LooseVersion(b)` for numeric dot-separated versions. -/
def looseVersionLt (a b : String) : Bool :=
  listLtNat (versionComponents a) (versionComponents b)

/-! ### The regex of EB_NEURON.sanity_check_step (neuron.py line 138)

`re.compile(r"^\s+-65\s*\n\s+5\s*\n\s+-68.134337", re.M).search(output)`
is embedded as a backtracking matcher for exactly this pattern: tokens are
literal characters, `.` (any character except newline), `\s+` and `\s*`;
`re.M` makes `^` anchor at the start of the string and after every newline. -/

inductive RTok where
  | lit (c : Char)
  | anyNoNL
  | wsPlus
  | wsStar
  deriving DecidableEq, Repr

/-- Does the token sequence match a prefix (not necessarily all) of `s`?
Backtracking semantics of `re`: `\s*` may consume any number of whitespace
characters as long as the rest of the pattern matches afterwards. -/
def matchToks (ts : List RTok) (s : List Char) : Bool :=
  match ts, s with
  | [], _ => true
  | RTok.lit _ :: _, [] => false
  | RTok.lit c :: ts, d :: s => c = d && matchToks ts s
  | RTok.anyNoNL :: _, [] => false
  | RTok.anyNoNL :: ts, d :: s => d ≠ '\n' && matchToks ts s
  | RTok.wsStar :: ts, s =>
      matchToks ts s ||
        (match s with
         | [] => false
         | d :: s => isWs d && matchToks (RTok.wsStar :: ts) s)
  | RTok.wsPlus :: _, [] => false
  | RTok.wsPlus :: ts, d :: s => isWs d && matchToks (RTok.wsStar :: ts) s
  termination_by 2 * s.length + ts.length

/-- Token list of `^\s+-65\s*\n\s+5\s*\n\s+-68.134337` (after the `^` anchor). -/
def demoPat : List RTok :=
  [RTok.wsPlus, RTok.lit '-', RTok.lit '6', RTok.lit '5', RTok.wsStar, RTok.lit '\n',
   RTok.wsPlus, RTok.lit '5', RTok.wsStar, RTok.lit '\n',
   RTok.wsPlus, RTok.lit '-', RTok.lit '6', RTok.lit '8', RTok.anyNoNL,
   RTok.lit '1', RTok.lit '3', RTok.lit '4', RTok.lit '3', RTok.lit '3', RTok.lit '7']

/-- Try the multiline `^`-anchored pattern at every position right after a newline. -/
def searchAfterNL : List Char → Bool
  | [] => false
  | c :: rest => (c = '\n' && matchToks demoPat rest) || searchAfterNL rest

/-- Embedding of `validate_regexp.search(res.output)` of neuron.py lines 138-139:
the `^`-anchored multiline pattern matches at the start of the output or
right after some newline. -/
def demoRegexSearch (s : String) : Bool :=
  matchToks demoPat s.data || searchAfterNL s.data

/-- The NEURON-demo portion of `EB_NEURON.sanity_check_step`
(neuron.py lines 126-141), as a function of the observed result of
`run_shell_cmd("neurondemo", ..., fail_on_error=False)`. -/
def neuron_demo_check (exit_code : Int) (output : String) : Except String Unit :=
  if exit_code ≠ 0 || !demoRegexSearch output then
    Except.error "Validation of NEURON demo run failed."
  else
    Except.ok ()

/-! ### The parallel hello-world test (neuron.py lines 143-166) -/

/-- Is the first list a prefix of the second (character lists)? -/
def startsList : List Char → List Char → Bool
  | [], _ => true
  | _ :: _, [] => false
  | a :: as, b :: bs => a = b && startsList as bs

/-- Does `needle` occur as a contiguous substring of `hay`?
This is `re.compile(f"I am {i:d} of {nproc:d}").search`, whose pattern has
no metacharacters. -/
def hasSub (needle : List Char) (hay : List Char) : Bool :=
  startsList needle hay ||
    (match hay with
     | [] => false
     | _ :: t => hasSub needle t)
  termination_by hay.length

/-- The expected line of rank `i` of `nproc`, `f"I am {i:d} of {nproc:d}"`. -/
def helloMsg (i nproc : Nat) : String :=
  "I am " ++ toString i ++ " of " ++ toString nproc

/-- The `valid` flag computed by the loop of neuron.py lines 156-161:
every rank `0 <= i < nproc` reported in the captured output. -/
def parallelValid (output : String) (nproc : Nat) : Bool :=
  (List.range nproc).all (fun i => hasSub (helloMsg i nproc).data output.data)

/-- Outcome of the MPI portion of the sanity check. -/
inductive ParOutcome where
  | skipped
  | ok
  | failed (msg : String)
  deriving DecidableEq, Repr

/-- The MPI-test portion of `EB_NEURON.sanity_check_step`
(neuron.py lines 143-166): nothing runs unless the `mpi_tests` build option
is set; otherwise the outcome is a function of the observed result of the
`mpi_cmd_for("nrniv -mpi test0.hoc", nproc)` command. -/
def neuron_parallel_check (mpi_tests : Bool) (nproc : Nat)
    (exit_code : Int) (output : String) : ParOutcome :=
  if mpi_tests then
    if exit_code ≠ 0 || !parallelValid output nproc then
      ParOutcome.failed "Validation of parallel hello world run failed."
    else
      ParOutcome.ok
  else
    ParOutcome.skipped

/-! ### EB_NEURON.make_module_step (neuron.py lines 175-186) -/

/-- Embedding of `EB_NEURON.make_module_step`: the value of
`module_load_environment.PYTHONPATH` handed to the step of the parent, as a
function of `with_python`, the software version and the previous value. -/
def neuron_make_module_step (with_python : Bool) (version : String)
    (pythonpath : Option (List String)) : Option (List String) :=
  if with_python then
    if looseVersionLt version "8" then
      some [pathJoin (pathJoin "lib" "python*") "site-packages"]
    else
      some [pathJoin "lib" "python"]
  else
    pythonpath

/-! ### EB_NEURON.make_module_extra (neuron.py lines 188-203) -/

/-- The compiler variables inspected, in program order (neuron.py line 195). -/
def neuronCompilerVars : List String :=
  ["CC", "CXX", "MPICC", "MPICXX", "MPICH_CC", "MPICH_CXX"]

/-- Embedding of `EB_NEURON.make_module_extra`: starting from the parent
text, append `module_generator.set_environment(var, val)` for each variable
whose `os.getenv` value is truthy (set and non-empty). -/
def neuron_make_module_extra (parent : String)
    (set_environment : String → String → String)
    (env : String → Option String) : String :=
  neuronCompilerVars.foldl
    (fun txt var =>
      if pyTruthy (env var) then txt ++ set_environment var ((env var).getD "")
      else txt)
    parent

/-! ### Overridden lifecycle hooks (whole-file structure, for the
refinement claim)

The method names each class body defines, read off the two source files in
order of appearance, and the six hook names the specification lists. -/

/-- Hooks the specification says are the only overridden methods. -/
def specListedHooks : List String :=
  ["extra_options", "__init__", "configure_step", "sanity_check_step",
   "make_module_extra", "make_module_step"]

/-- Methods defined in `class EB_NEURON(CMakeMake)` (neuron.py). -/
def ebNeuronOverridden : List String :=
  ["extra_options", "__init__", "configure_step", "sanity_check_step",
   "make_module_step", "make_module_extra"]

/-- Methods defined in `class JuliaBundle(Bundle)` (juliabundle.py). -/
def juliaBundleOverridden : List String :=
  ["extra_options", "__init__", "prepare_step", "make_module_extra",
   "sanity_check_step"]

/-! ### Python dict model for `exts_default_options` (JuliaBundle.__init__) -/

/-- Values stored in an easyconfig: strings, numbers, booleans, lists,
string-keyed dicts, `None`. -/
inductive PyVal where
  | str (s : String)
  | num (n : Nat)
  | boolean (b : Bool)
  | list (l : List PyVal)
  | dict (l : List (String × PyVal))
  | pynone

/-- Membership `key in d` for the insertion-ordered dict model. -/
def dictMem (d : List (String × PyVal)) (k : String) : Bool :=
  d.any (fun p => p.1 = k)

/-- Lookup `d[key]`, returning `none` when the key is missing. -/
def dictGet (d : List (String × PyVal)) (k : String) : Option PyVal :=
  (d.find? (fun p => p.1 = k)).map (fun p => p.2)

/-- Assignment `d[key] = v`: overwrite in place when present, append when absent. -/
def dictSet (d : List (String × PyVal)) (k : String) (v : PyVal) :
    List (String × PyVal) :=
  if dictMem d k then d.map (fun p => if p.1 = k then (p.1, v) else p)
  else d ++ [(k, v)]

/-- The default `sources` renaming entry installed by `JuliaBundle.__init__`
(juliabundle.py lines 72-78). -/
def defaultJuliaSources : PyVal :=
  PyVal.list [PyVal.dict
    [("download_filename", PyVal.str "v%(version)s.tar.gz"),
     ("filename", PyVal.str "%(name)s-%(version)s.tar.gz")]]

/-- The loop of juliabundle.py lines 64-67: `for key in jlpkg_keys: if key
not in exts_default_options: exts_default_options[key] = self.cfg[key]`. -/
def fillExtsDefaults (topCfg : String → PyVal) :
    List String → List (String × PyVal) → List (String × PyVal)
  | [], d => d
  | k :: ks, d =>
      fillExtsDefaults topCfg ks (if dictMem d k then d else dictSet d k (topCfg k))

/-- The configuration fields `JuliaBundle.__init__` writes. -/
structure JuliaBundleCfg where
  exts_defaultclass : String
  exts_filter : String × String
  exts_default_options : List (String × PyVal)

/-- Embedding of `JuliaBundle.__init__` after the `super().__init__` call
(juliabundle.py lines 58-78). `extsFilter` stands for the constant
`EXTS_FILTER_JULIA_PACKAGES` and `jlpkgKeys` for
`JuliaPackage.extra_options().keys()`, both imported from
`juliapackage.py` which is outside the two source files. -/
def juliaBundle_init (extsFilter : String × String) (jlpkgKeys : List String)
    (topCfg : String → PyVal) (cfg : JuliaBundleCfg) : JuliaBundleCfg :=
  let cfg := { cfg with
    exts_defaultclass := "JuliaPackage",
    exts_filter := extsFilter }
  let opts := fillExtsDefaults topCfg jlpkgKeys cfg.exts_default_options
  let opts :=
    if dictMem opts "sources" then opts
    else dictSet opts "sources" defaultJuliaSources
  { cfg with exts_default_options := opts }

/-! ### JuliaBundle.prepare_step (juliabundle.py lines 82-94) -/

/-- The instance fields `prepare_step` computes; `julia_project_env` is the
directory handed to `mkdir(..., parents=True)`. -/
structure JuliaPrepared where
  julia_project_toml : String
  julia_project_env : String
  deriving DecidableEq, Repr

/-- Embedding of `JuliaBundle.prepare_step` after the `super().prepare_step`
call: raise when `get_software_root(Julia)` is `None`, otherwise build the
project paths from the first two dot-separated components of
`get_software_version(Julia)` (an `IndexError` escapes when there are
fewer than two). -/
def juliaBundle_prepare_step (installdir : String) (julia_root : Option String)
    (julia_version : String) : Except String JuliaPrepared :=
  if julia_root = none then
    Except.error "Julia not included as dependency!"
  else
    match pySplitDot julia_version with
    | maj :: minor :: _ =>
        let julia_env_dir := "v" ++ maj ++ "." ++ minor
        let toml := pathJoin (pathJoin "environments" julia_env_dir) "Project.toml"
        Except.ok
          { julia_project_toml := toml,
            julia_project_env := dirname (pathJoin installdir toml) }
    | _ => Except.error "IndexError: Replacement index 1 out of range"

/-! ### JuliaBundle.make_module_extra (juliabundle.py lines 96-111) -/

/-- Embedding of `JuliaBundle.make_module_extra`: the parent text, then the
`JULIA_PATHS_SOFT_INIT` snippet for the generator syntax when that syntax
is truthy, then an `append_paths` of a singleton empty path to `JULIA_DEPOT_PATH`, then an
`append_paths` of the project file to `JULIA_LOAD_PATH`. `softInit` stands
for the `JULIA_PATHS_SOFT_INIT` dict of `juliapackage.py` and
`append_paths` for the method of the module generator, both outside the two
source files. -/
def juliaBundle_make_module_extra (parent : String) (synOpt : Option String)
    (softInit : String → String)
    (append_paths : String → List String → String)
    (julia_project_toml : String) : String :=
  let mod := parent
  let mod := if pyTruthy synOpt then mod ++ softInit (synOpt.getD "") else mod
  let mod := mod ++ append_paths "JULIA_DEPOT_PATH" [""]
  mod ++ append_paths "JULIA_LOAD_PATH" [julia_project_toml]

/-! ## Theorems -/

/-- Two strings with the same character data are equal. -/
theorem stringDataEq {a b : String} (h : a.data = b.data) : a = b := by
  cases a; cases b; exact congrArg String.mk h

/-- Success of `parallelValid` is exactly the statement that every rank below `nproc`
occurs in the output. -/
theorem parallelValid_iff (output : String) (nproc : Nat) :
    parallelValid output nproc = true ↔
      ∀ i, i < nproc → hasSub (helloMsg i nproc).data output.data = true := by
  simp [parallelValid, List.all_eq_true, List.mem_range]

/-- Failure of `parallelValid` is the existence of a missing rank. -/
theorem parallelValid_false_iff (output : String) (nproc : Nat) :
    parallelValid output nproc = false ↔
      ∃ i, i < nproc ∧ hasSub (helloMsg i nproc).data output.data = false := by
  rw [← Bool.not_eq_true, parallelValid_iff]
  push_neg
  simp [Bool.not_eq_true]

/-- Normal form of `EB_NEURON.configure_step`: the step appends, in order,
the MPI chunk, the InterViews chunk and the Python chunk to `configopts`,
updates `with_python` and `pylibdir`, and changes nothing else. -/
theorem neuron_configure_step_eq (st : NeuronState)
    (iv py : Option String) (d : String) :
    neuron_configure_step st iv py d =
      { st with
        with_python := st.with_python || pyTruthy py,
        pylibdir := d,
        configopts := st.configopts
          ++ (if st.paranrn then ["-DNRN_ENABLE_MPI=ON"]
              else ["-DNRN_ENABLE_MPI=OFF"])
          ++ (if pyTruthy iv then
                ["-DIV_DIR=" ++ iv.getD "" ++ " -DNRN_ENABLE_INTERVIEWS=ON"]
              else ["-DNRN_ENABLE_INTERVIEWS=OFF"])
          ++ (if pyTruthy py then
                ["-DNRN_ENABLE_PYTHON=ON -DPYTHON_EXECUTABLE="
                    ++ py.getD "" ++ "/bin/python",
                 "-DNRN_ENABLE_MODULE_INSTALL=ON -DNRN_MODULE_INSTALL_OPTIONS=\x27--prefix="
                    ++ st.installdir ++ "\x27"]
              else ["-DNRN_ENABLE_PYTHON=OFF"]) } := by
  by_cases hp : st.paranrn <;> by_cases hiv : pyTruthy iv <;>
    by_cases hpy : pyTruthy py <;>
    simp [neuron_configure_step, hp, hiv, hpy, List.append_assoc]

/-- C1: `EB_NEURON.sanity_check_step` raises
`EasyBuildError("Validation of NEURON demo run failed.")` if and only if the
`neurondemo` command exits non-zero or its captured output fails the
multiline regex `^\s+-65\s*\n\s+5\s*\n\s+-68.134337`; on a zero exit code
with matching output this check raises nothing. -/
theorem neuron_demo_check_raises_iff (e : Int) (out : String) :
    (neuron_demo_check e out = Except.error "Validation of NEURON demo run failed."
      ↔ (e ≠ 0 ∨ demoRegexSearch out = false)) ∧
    (neuron_demo_check e out = Except.ok ()
      ↔ (e = 0 ∧ demoRegexSearch out = true)) := by
  by_cases he : e = 0 <;> by_cases hm : demoRegexSearch out <;>
    simp [neuron_demo_check, he, hm]

/-- C2: `EB_NEURON.configure_step` appends to `configopts`, right after the
previous options, exactly one MPI flag (`-DNRN_ENABLE_MPI=ON` when `paranrn`
is set, `-DNRN_ENABLE_MPI=OFF` otherwise), then exactly one InterViews chunk
(`-DIV_DIR=<root> -DNRN_ENABLE_INTERVIEWS=ON` when InterViews is available
as a dependency, `-DNRN_ENABLE_INTERVIEWS=OFF` otherwise), before the
Python-related flags. -/
theorem neuron_configure_step_mpi_interviews (st : NeuronState)
    (iv py : Option String) (d : String) :
    ∃ pyFlags : List String,
      (neuron_configure_step st iv py d).configopts =
        st.configopts
          ++ [if st.paranrn then "-DNRN_ENABLE_MPI=ON" else "-DNRN_ENABLE_MPI=OFF"]
          ++ (if pyTruthy iv then
                ["-DIV_DIR=" ++ iv.getD "" ++ " -DNRN_ENABLE_INTERVIEWS=ON"]
              else ["-DNRN_ENABLE_INTERVIEWS=OFF"])
          ++ pyFlags := by
  refine ⟨if pyTruthy py then
      ["-DNRN_ENABLE_PYTHON=ON -DPYTHON_EXECUTABLE=" ++ py.getD "" ++ "/bin/python",
       "-DNRN_ENABLE_MODULE_INSTALL=ON -DNRN_MODULE_INSTALL_OPTIONS=\x27--prefix="
         ++ st.installdir ++ "\x27"]
    else ["-DNRN_ENABLE_PYTHON=OFF"], ?_⟩
  rw [neuron_configure_step_eq]
  by_cases hp : st.paranrn <;> by_cases hiv : pyTruthy iv <;>
    by_cases hpy : pyTruthy py <;> simp [hp, hiv, hpy]

/-- C5: `EB_NEURON.configure_step` appends the Python flags
(`-DNRN_ENABLE_PYTHON=ON -DPYTHON_EXECUTABLE=<python_root>/bin/python`
together with `-DNRN_ENABLE_MODULE_INSTALL=ON
-DNRN_MODULE_INSTALL_OPTIONS=--prefix=<installdir>`) and sets
`with_python` exactly when Python is available as a dependency, and appends
`-DNRN_ENABLE_PYTHON=OFF` leaving `with_python` untouched (hence false after
`__init__`) otherwise; in both cases it only ever appends to `configopts`
and leaves every other configuration value unchanged before delegating to
`CMakeMake.configure_step`. -/
theorem neuron_configure_step_python (st : NeuronState)
    (iv py : Option String) (d : String) :
    (∃ added : List String,
        (neuron_configure_step st iv py d).configopts = st.configopts ++ added) ∧
    (neuron_configure_step st iv py d).paranrn = st.paranrn ∧
    (neuron_configure_step st iv py d).installdir = st.installdir ∧
    (neuron_configure_step st iv py d).otherCfg = st.otherCfg ∧
    (neuron_configure_step st iv py d).with_python
      = (st.with_python || pyTruthy py) ∧
    (pyTruthy py = true →
      ∃ pre : List String,
        (neuron_configure_step st iv py d).configopts =
          st.configopts ++ pre
            ++ ["-DNRN_ENABLE_PYTHON=ON -DPYTHON_EXECUTABLE="
                  ++ py.getD "" ++ "/bin/python",
                "-DNRN_ENABLE_MODULE_INSTALL=ON -DNRN_MODULE_INSTALL_OPTIONS=\x27--prefix="
                  ++ st.installdir ++ "\x27"]) ∧
    (pyTruthy py = false →
      ∃ pre : List String,
        (neuron_configure_step st iv py d).configopts =
          st.configopts ++ pre ++ ["-DNRN_ENABLE_PYTHON=OFF"]) := by
  rw [neuron_configure_step_eq]
  refine ⟨⟨(if st.paranrn then ["-DNRN_ENABLE_MPI=ON"] else ["-DNRN_ENABLE_MPI=OFF"])
      ++ (if pyTruthy iv then
            ["-DIV_DIR=" ++ iv.getD "" ++ " -DNRN_ENABLE_INTERVIEWS=ON"]
          else ["-DNRN_ENABLE_INTERVIEWS=OFF"])
      ++ (if pyTruthy py then
            ["-DNRN_ENABLE_PYTHON=ON -DPYTHON_EXECUTABLE="
                ++ py.getD "" ++ "/bin/python",
             "-DNRN_ENABLE_MODULE_INSTALL=ON -DNRN_MODULE_INSTALL_OPTIONS=\x27--prefix="
                ++ st.installdir ++ "\x27"]
          else ["-DNRN_ENABLE_PYTHON=OFF"]),
      by simp [List.append_assoc]⟩, rfl, rfl, rfl, rfl, fun hc => ?_, fun hc => ?_⟩
  · refine ⟨(if st.paranrn then ["-DNRN_ENABLE_MPI=ON"] else ["-DNRN_ENABLE_MPI=OFF"])
      ++ (if pyTruthy iv then
            ["-DIV_DIR=" ++ iv.getD "" ++ " -DNRN_ENABLE_INTERVIEWS=ON"]
          else ["-DNRN_ENABLE_INTERVIEWS=OFF"]), ?_⟩
    simp [hc, List.append_assoc]
  · refine ⟨(if st.paranrn then ["-DNRN_ENABLE_MPI=ON"] else ["-DNRN_ENABLE_MPI=OFF"])
      ++ (if pyTruthy iv then
            ["-DIV_DIR=" ++ iv.getD "" ++ " -DNRN_ENABLE_INTERVIEWS=ON"]
          else ["-DNRN_ENABLE_INTERVIEWS=OFF"]), ?_⟩
    simp [hc, List.append_assoc]

/-- Witness for C5 at a concrete state with Python available: the Python
flags land at the end of the appended options. -/
theorem neuron_configure_step_python_witness :
    ∃ pre : List String,
      (neuron_configure_step
          (NeuronState.mk true ["-DFOO=1"] false "UNKNOWN" "/opt/nrn" [])
          (some "/opt/iv") (some "/opt/python") "plib").configopts =
        ["-DFOO=1"] ++ pre
          ++ ["-DNRN_ENABLE_PYTHON=ON -DPYTHON_EXECUTABLE="
                ++ (some "/opt/python" : Option String).getD "" ++ "/bin/python",
              "-DNRN_ENABLE_MODULE_INSTALL=ON -DNRN_MODULE_INSTALL_OPTIONS=\x27--prefix="
                ++ "/opt/nrn" ++ "\x27"] :=
  (neuron_configure_step_python
    (NeuronState.mk true ["-DFOO=1"] false "UNKNOWN" "/opt/nrn" [])
    (some "/opt/iv") (some "/opt/python") "plib").2.2.2.2.2.1 (by rfl)

/-- C4: with the `mpi_tests` build option enabled, the MPI portion of
`EB_NEURON.sanity_check_step` raises
`EasyBuildError("Validation of parallel hello world run failed.")` if and
only if the parallel command exits non-zero or some rank `i < nproc` is
missing from the output as substring `I am i of nproc`; with the option
disabled the parallel test is skipped and no command runs. -/
theorem neuron_parallel_check_spec (nproc : Nat) (e : Int) (out : String) :
    (neuron_parallel_check true nproc e out
        = ParOutcome.failed "Validation of parallel hello world run failed."
      ↔ (e ≠ 0 ∨ ∃ i, i < nproc ∧ hasSub (helloMsg i nproc).data out.data = false)) ∧
    (neuron_parallel_check true nproc e out = ParOutcome.ok
      ↔ (e = 0 ∧ ∀ i, i < nproc → hasSub (helloMsg i nproc).data out.data = true)) ∧
    neuron_parallel_check false nproc e out = ParOutcome.skipped := by
  refine ⟨?_, ?_, by simp [neuron_parallel_check]⟩ <;>
    by_cases he : e = 0 <;> by_cases hv : parallelValid out nproc = true <;>
    simp [neuron_parallel_check, he, hv] <;>
    first
      | exact fun i hi => (parallelValid_iff out nproc).mp hv i hi
      | exact (parallelValid_false_iff out nproc).mp (Bool.eq_false_iff.mpr hv)

/-- C7: `EB_NEURON.make_module_step` sets the module load environment entry
`PYTHONPATH` to the single entry `lib/python*/site-packages` for versions
strictly below 8 and to `lib/python` from version 8 on, but only when
`with_python` holds; otherwise `PYTHONPATH` is left unchanged. -/
theorem neuron_make_module_step_pythonpath (version : String)
    (pythonpath : Option (List String)) :
    (neuron_make_module_step true version pythonpath =
      some [if looseVersionLt version "8" then "lib/python*/site-packages"
            else "lib/python"]) ∧
    neuron_make_module_step false version pythonpath = pythonpath := by
  refine ⟨?_, by simp [neuron_make_module_step]⟩
  by_cases h : looseVersionLt version "8" <;>
    simp [neuron_make_module_step, h] <;> decide

/-- Folding string concatenation from an accumulator factors the accumulator
out front. -/
theorem strFoldlAppend (xs : List String) (a : String) :
    xs.foldl (fun x y => x ++ y) a = a ++ xs.foldl (fun x y => x ++ y) "" := by
  induction xs generalizing a with
  | nil => simp
  | cons x xs ih =>
      simp only [List.foldl_cons]
      rw [ih (a ++ x), ih ("" ++ x), String.empty_append, String.append_assoc]

/-- Unfolding `String.join` over a cons. -/
theorem stringJoinCons (x : String) (xs : List String) :
    String.join (x :: xs) = x ++ String.join xs := by
  simp only [String.join, List.foldl_cons, String.empty_append]
  exact strFoldlAppend xs x

/-- C10: `EB_NEURON.make_module_extra` returns the parent module text
extended by one `set_environment` entry per variable of
`CC, CXX, MPICC, MPICXX, MPICH_CC, MPICH_CXX`, in exactly that order, for
precisely the variables whose current environment value is set and
non-empty, each entry recording that value. -/
theorem neuron_make_module_extra_spec (parent : String)
    (set_environment : String → String → String) (env : String → Option String) :
    neuron_make_module_extra parent set_environment env =
      parent ++ String.join
        ((neuronCompilerVars.filter (fun v => pyTruthy (env v))).map
          (fun v => set_environment v ((env v).getD ""))) := by
  have key : ∀ (l : List String) (acc : String),
      l.foldl (fun txt var =>
        if pyTruthy (env var) then txt ++ set_environment var ((env var).getD "")
        else txt) acc
      = acc ++ String.join
          ((l.filter (fun v => pyTruthy (env v))).map
            (fun v => set_environment v ((env v).getD ""))) := by
    intro l
    induction l with
    | nil => intro acc; simp [String.join]
    | cons v l ih =>
        intro acc
        by_cases h : pyTruthy (env v) <;>
          simp [h, List.foldl_cons, ih, stringJoinCons, String.append_assoc]
  exact key neuronCompilerVars parent

/-- C3 counterexample: the list in the specification of overridden lifecycle
hooks is wrong for `JuliaBundle`, which overrides `prepare_step`, a method
outside that list (so not every non-listed step of `JuliaBundle` is the
generic `Bundle` one). -/
theorem juliaBundle_overrides_outside_spec_list :
    "prepare_step" ∈ juliaBundleOverridden ∧ "prepare_step" ∉ specListedHooks := by
  decide

/-- C3 (amended): `EB_NEURON` overrides only hooks from the listed six;
`JuliaBundle` overrides only hooks from the listed six plus `prepare_step`,
and its `prepare_step` does not behave as the generic parent one: it
additionally raises `EasyBuildError("Julia not included as dependency!")`
when Julia is missing from the dependencies. -/
theorem overridden_hooks_amended :
    (∀ m ∈ ebNeuronOverridden, m ∈ specListedHooks) ∧
    (∀ m ∈ juliaBundleOverridden, m ∈ specListedHooks ∨ m = "prepare_step") ∧
    juliaBundle_prepare_step "/opt/sw" none "1.9.3"
      = Except.error "Julia not included as dependency!" := by
  exact ⟨by decide, by decide, rfl⟩

/-! ### Dict lemmas for `JuliaBundle.__init__` -/

/-- One step of dict lookup. -/
theorem dictGet_cons (a : String) (b : PyVal) (d : List (String × PyVal))
    (k : String) :
    dictGet ((a, b) :: d) k = if a = k then some b else dictGet d k := by
  by_cases h : a = k <;>
    simp [dictGet, List.find?_cons_of_pos, List.find?_cons_of_neg, h]

/-- One step of dict membership. -/
theorem dictMem_cons (a : String) (b : PyVal) (d : List (String × PyVal))
    (k : String) :
    dictMem ((a, b) :: d) k = (decide (a = k) || dictMem d k) := by
  simp [dictMem]

/-- Rewriting the entries keyed `k` does not change lookups of other keys. -/
theorem mapGet_ne (d : List (String × PyVal)) (k k' : String) (v : PyVal)
    (h : k' ≠ k) :
    dictGet (d.map (fun p => if p.1 = k then (p.1, v) else p)) k' = dictGet d k' := by
  induction d with
  | nil => rfl
  | cons p d ih =>
      obtain ⟨a, b⟩ := p
      rw [List.map_cons]
      by_cases hp : a = k
      · have he : (if (a, b).1 = k then ((a, b).1, v) else (a, b)) = (a, v) := by
          simp [hp]
        have hak : ¬ a = k' := by
          rw [hp]; exact fun hc => h hc.symm
        rw [he, dictGet_cons, dictGet_cons, if_neg hak, if_neg hak, ih]
      · have he : (if (a, b).1 = k then ((a, b).1, v) else (a, b)) = (a, b) := by
          simp [hp]
        rw [he, dictGet_cons, dictGet_cons, ih]

/-- Rewriting the entries keyed `k` makes the lookup of `k` return the new
value, provided some entry has key `k`. -/
theorem mapGet_self (d : List (String × PyVal)) (k : String) (v : PyVal)
    (h : dictMem d k = true) :
    dictGet (d.map (fun p => if p.1 = k then (p.1, v) else p)) k = some v := by
  induction d with
  | nil => simp [dictMem] at h
  | cons p d ih =>
      obtain ⟨a, b⟩ := p
      rw [List.map_cons]
      by_cases hp : a = k
      · have he : (if (a, b).1 = k then ((a, b).1, v) else (a, b)) = (a, v) := by
          simp [hp]
        rw [he, dictGet_cons, if_pos hp]
      · have he : (if (a, b).1 = k then ((a, b).1, v) else (a, b)) = (a, b) := by
          simp [hp]
        have h' : dictMem d k = true := by
          rw [dictMem_cons] at h
          simpa [hp] using h
        rw [he, dictGet_cons, if_neg hp, ih h']

/-- Rewriting the entries keyed `k` does not change the key set. -/
theorem mapMem (d : List (String × PyVal)) (k k' : String) (v : PyVal) :
    dictMem (d.map (fun p => if p.1 = k then (p.1, v) else p)) k' = dictMem d k' := by
  induction d with
  | nil => rfl
  | cons p d ih =>
      obtain ⟨a, b⟩ := p
      rw [List.map_cons]
      by_cases hp : a = k
      · have he : (if (a, b).1 = k then ((a, b).1, v) else (a, b)) = (a, v) := by
          simp [hp]
        rw [he, dictMem_cons, dictMem_cons, ih]
      · have he : (if (a, b).1 = k then ((a, b).1, v) else (a, b)) = (a, b) := by
          simp [hp]
        rw [he, dictMem_cons, dictMem_cons, ih]

/-- Appending a fresh entry: lookups of the new key see it, others pass. -/
theorem dictGet_append_single (d : List (String × PyVal)) (k : String)
    (v : PyVal) (k' : String) (hmem : dictMem d k = false) :
    dictGet (d ++ [(k, v)]) k' = if k' = k then some v else dictGet d k' := by
  induction d with
  | nil =>
      rw [List.nil_append, dictGet_cons]
      by_cases hk : k' = k
      · rw [if_pos hk, if_pos hk.symm]
      · rw [if_neg hk, if_neg (fun hc => hk hc.symm)]
  | cons p d ih =>
      obtain ⟨a, b⟩ := p
      rw [dictMem_cons, Bool.or_eq_false_iff] at hmem
      have hak : ¬ a = k := by simpa using hmem.1
      rw [List.cons_append, dictGet_cons, dictGet_cons, ih hmem.2]
      by_cases hk : k' = k
      · have : ¬ a = k' := fun hc => hak (hc.trans hk)
        rw [if_neg this, if_neg this, if_pos hk]
      · simp [hk]

/-- Assigning `d[k] = v` then reading `d[k']` gives back `v` for `k' = k` and the old value
otherwise. -/
theorem dictGet_set (d : List (String × PyVal)) (k k' : String) (v : PyVal) :
    dictGet (dictSet d k v) k' = if k' = k then some v else dictGet d k' := by
  by_cases hmem : dictMem d k
  · by_cases hk : k' = k
    · subst hk
      simp [dictSet, hmem, mapGet_self d k' v hmem]
    · simp [dictSet, hmem, hk, mapGet_ne d k k' v hk]
  · have hmem' : dictMem d k = false := by simpa using hmem
    simp only [dictSet, hmem', Bool.false_eq_true, if_false]
    exact dictGet_append_single d k v k' hmem'

/-- Membership after `d[k] = v`: the old keys plus `k`. -/
theorem dictMem_set (d : List (String × PyVal)) (k k' : String) (v : PyVal) :
    dictMem (dictSet d k v) k' = (dictMem d k' || decide (k' = k)) := by
  by_cases hmem : dictMem d k
  · simp only [dictSet, hmem, if_true]
    rw [mapMem]
    by_cases hk : k' = k
    · subst hk
      simp [hmem]
    · simp [hk]
  · have hmem' : dictMem d k = false := by simpa using hmem
    simp only [dictSet, hmem', Bool.false_eq_true, if_false]
    simp [dictMem, List.any_append, eq_comm]

/-- The defaults-filling loop never removes a key. -/
theorem fill_mem_mono (t : String → PyVal) (ks : List String)
    (d : List (String × PyVal)) (k : String) (h : dictMem d k = true) :
    dictMem (fillExtsDefaults t ks d) k = true := by
  induction ks generalizing d with
  | nil => exact h
  | cons k0 ks ih =>
      simp only [fillExtsDefaults]
      by_cases h0 : dictMem d k0
      · simp only [h0, if_true]
        exact ih d h
      · have h' : dictMem (dictSet d k0 (t k0)) k = true := by
          rw [dictMem_set]; simp [h]
        simp only [h0, Bool.false_eq_true, if_false]
        exact ih _ h'

/-- The defaults-filling loop keeps the value of every key already present. -/
theorem fill_get_of_mem (t : String → PyVal) (ks : List String)
    (d : List (String × PyVal)) (k : String) (h : dictMem d k = true) :
    dictGet (fillExtsDefaults t ks d) k = dictGet d k := by
  induction ks generalizing d with
  | nil => rfl
  | cons k0 ks ih =>
      simp only [fillExtsDefaults]
      by_cases h0 : dictMem d k0
      · simp only [h0, if_true]
        exact ih d h
      · have hne : ¬ (k = k0) := fun hc => h0 (hc ▸ h)
        have hmem' : dictMem (dictSet d k0 (t k0)) k = true := by
          rw [dictMem_set]; simp [h]
        have hrec := ih _ hmem'
        rw [dictGet_set, if_neg hne] at hrec
        simp only [h0, Bool.false_eq_true, if_false]
        exact hrec

/-- The defaults-filling loop does not touch keys outside its key list. -/
theorem fill_mem_of_not_key (t : String → PyVal) (ks : List String)
    (d : List (String × PyVal)) (k : String) (h : k ∉ ks) :
    dictMem (fillExtsDefaults t ks d) k = dictMem d k := by
  induction ks generalizing d with
  | nil => rfl
  | cons k0 ks ih =>
      have hk0 : ¬ (k = k0) := fun hc => h (by rw [hc]; exact List.mem_of_mem_head? rfl)
      have hks : k ∉ ks := fun hc => h (List.mem_cons_of_mem _ hc)
      simp only [fillExtsDefaults]
      by_cases h0 : dictMem d k0
      · simp only [h0, if_true]
        exact ih _ hks
      · simp only [h0, Bool.false_eq_true, if_false]
        rw [ih _ hks, dictMem_set]
        simp [hk0]

/-- The defaults-filling loop installs the top-level value for a listed key
that is absent. -/
theorem fill_get_absent (t : String → PyVal) (ks : List String)
    (d : List (String × PyVal)) (k : String) (hin : k ∈ ks)
    (h : dictMem d k = false) :
    dictGet (fillExtsDefaults t ks d) k = some (t k) := by
  induction ks generalizing d with
  | nil => cases hin
  | cons k0 ks ih =>
      simp only [fillExtsDefaults]
      by_cases hk0 : k0 = k
      · subst hk0
        simp only [h, Bool.false_eq_true, if_false]
        have hmem' : dictMem (dictSet d k0 (t k0)) k0 = true := by
          rw [dictMem_set]; simp
        rw [fill_get_of_mem t ks _ k0 hmem', dictGet_set, if_pos rfl]
      · have hin' : k ∈ ks := by
          rcases List.mem_cons.mp hin with hc | hc
          · exact absurd hc.symm hk0
          · exact hc
        by_cases h0 : dictMem d k0
        · simp only [h0, if_true]
          exact ih _ hin' h
        · have hkk : ¬ (k = k0) := fun hc => hk0 hc.symm
          have h' : dictMem (dictSet d k0 (t k0)) k = false := by
            rw [dictMem_set]
            simp [h, hkk]
          simp only [h0, Bool.false_eq_true, if_false]
          exact ih _ hin' h'

/-- C8: `JuliaBundle.__init__` always sets `exts_defaultclass` to
`JuliaPackage` and `exts_filter` to the Julia extension filter; it copies
the top-level easyconfig value into `exts_default_options` only for
`JuliaPackage.extra_options` keys that are absent, keeps the value of every
key already present, and installs the default `sources` renaming entry only
when `sources` is absent. -/
theorem juliaBundle_init_spec (extsFilter : String × String)
    (keys : List String) (topCfg : String → PyVal) (cfg : JuliaBundleCfg)
    (hs : "sources" ∉ keys) :
    ((juliaBundle_init extsFilter keys topCfg cfg).exts_defaultclass
        = "JuliaPackage") ∧
    ((juliaBundle_init extsFilter keys topCfg cfg).exts_filter = extsFilter) ∧
    (∀ k, dictMem cfg.exts_default_options k = true →
      dictGet (juliaBundle_init extsFilter keys topCfg cfg).exts_default_options k
        = dictGet cfg.exts_default_options k) ∧
    (∀ k, k ∈ keys → dictMem cfg.exts_default_options k = false →
      dictGet (juliaBundle_init extsFilter keys topCfg cfg).exts_default_options k
        = some (topCfg k)) ∧
    (dictMem cfg.exts_default_options "sources" = false →
      dictGet (juliaBundle_init extsFilter keys topCfg cfg).exts_default_options
          "sources"
        = some defaultJuliaSources) := by
  have hopts : (juliaBundle_init extsFilter keys topCfg cfg).exts_default_options
      = (if dictMem (fillExtsDefaults topCfg keys cfg.exts_default_options) "sources"
         then fillExtsDefaults topCfg keys cfg.exts_default_options
         else dictSet (fillExtsDefaults topCfg keys cfg.exts_default_options)
                "sources" defaultJuliaSources) := rfl
  refine ⟨rfl, rfl, ?_, ?_, ?_⟩
  · intro k hk
    have h1 := fill_get_of_mem topCfg keys cfg.exts_default_options k hk
    rw [hopts]
    by_cases hsrc : dictMem (fillExtsDefaults topCfg keys cfg.exts_default_options)
        "sources"
    · rw [if_pos hsrc]; exact h1
    · have hksrc : ¬ (k = "sources") := by
        intro hc
        exact hsrc (hc ▸ fill_mem_mono topCfg keys cfg.exts_default_options k hk)
      rw [if_neg hsrc, dictGet_set, if_neg hksrc]
      exact h1
  · intro k hkin hkabs
    have h1 := fill_get_absent topCfg keys cfg.exts_default_options k hkin hkabs
    have hksrc : ¬ (k = "sources") := fun hc => hs (hc ▸ hkin)
    rw [hopts]
    by_cases hsrc : dictMem (fillExtsDefaults topCfg keys cfg.exts_default_options)
        "sources"
    · rw [if_pos hsrc]; exact h1
    · rw [if_neg hsrc, dictGet_set, if_neg hksrc]
      exact h1
  · intro habs
    have hmem : dictMem (fillExtsDefaults topCfg keys cfg.exts_default_options)
        "sources" = false := by
      rw [fill_mem_of_not_key topCfg keys cfg.exts_default_options "sources" hs]
      exact habs
    rw [hopts, if_neg (by simp [hmem]), dictGet_set, if_pos rfl]

/-- Witness for C8 at a concrete configuration: a present key keeps its
value, an absent listed key receives the top-level value, and the default
`sources` entry is installed. -/
theorem juliaBundle_init_spec_witness :
    dictGet (juliaBundle_init ("jlcmd", "jlin") ["arch"] (fun _ => PyVal.num 7)
        { exts_defaultclass := "",
          exts_filter := ("", ""),
          exts_default_options := [("keep", PyVal.str "orig")]
        }).exts_default_options "sources" = some defaultJuliaSources :=
  (juliaBundle_init_spec ("jlcmd", "jlin") ["arch"] (fun _ => PyVal.num 7)
    { exts_defaultclass := "",
      exts_filter := ("", ""),
      exts_default_options := [("keep", PyVal.str "orig")] }
    (by decide)).2.2.2.2 rfl

/-! ### Path lemmas for `JuliaBundle.prepare_step` -/

/-- Lemma: `dropWhile` jumps over a block whose elements all satisfy the predicate. -/
theorem dropWhileAppend (p : Char → Bool) (l r : List Char)
    (h : ∀ c ∈ l, p c = true) :
    List.dropWhile p (l ++ r) = List.dropWhile p r := by
  induction l with
  | nil => rfl
  | cons c l ih =>
      rw [List.cons_append, List.dropWhile_cons_of_pos (h c (List.mem_cons_self c l))]
      exact ih (fun d hd => h d (List.mem_cons_of_mem c hd))

/-- Joining a relative component onto a normal path inserts one slash. -/
theorem pathJoinAux_eq (a b : List Char) (hb : ¬ b.head? = some '/')
    (ha1 : ¬ a = []) (ha2 : ¬ a.getLast? = some '/') :
    pathJoinAux a b = a ++ '/' :: b := by
  simp [pathJoinAux, hb, ha1, ha2]

/-- Joining a relative component onto the empty path returns the component. -/
theorem pathJoinAux_nil (b : List Char) (hb : ¬ b.head? = some '/') :
    pathJoinAux [] b = b := by
  simp [pathJoinAux, hb]

/-- The dirname of `x ++ "/" ++ f` is `x` when the final component `f` has
no slash and `x` is non-empty without a trailing slash. -/
theorem dirnameAux_app (x f : List Char) (hf : '/' ∉ f) (hx : ¬ x = [])
    (hxl : ¬ x.getLast? = some '/') :
    dirnameAux (x ++ '/' :: f) = x := by
  obtain ⟨c, t, hxr⟩ : ∃ c t, x.reverse = c :: t := by
    cases hr : x.reverse with
    | nil => exact absurd (List.reverse_eq_nil_iff.mp hr) hx
    | cons c t => exact ⟨c, t, rfl⟩
  have hc : ¬ c = '/' := by
    intro hcc
    apply hxl
    rw [← List.head?_reverse, hxr, hcc]
    rfl
  have h1 : (x ++ '/' :: f).reverse = f.reverse ++ '/' :: x.reverse := by
    rw [List.reverse_append, List.reverse_cons, List.append_assoc,
      List.singleton_append]
  have h2 : List.dropWhile (fun ch => ch ≠ '/') ((x ++ '/' :: f).reverse)
      = '/' :: x.reverse := by
    rw [h1, dropWhileAppend]
    · exact List.dropWhile_cons_of_neg (by simp)
    · intro d hd
      have hdf : ¬ d = '/' := fun hdd => hf (hdd ▸ List.mem_reverse.mp hd)
      simpa using hdf
  have h3 : ¬ (('/' :: x.reverse).all (fun ch => ch = '/') = true) := by
    rw [hxr]
    simp [hc]
  have h4 : List.dropWhile (fun ch => ch = '/') ('/' :: x.reverse) = x.reverse := by
    rw [List.dropWhile_cons_of_pos (by simp), hxr,
      List.dropWhile_cons_of_neg (by simpa using hc)]
  simp only [dirnameAux, h2]
  simp [h3, h4]

/-- A list ending in a component without slashes does not end in a slash. -/
theorem getLastConsNeSlash (c : Char) (hc : ¬ c = '/') (m : List Char)
    (hm : '/' ∉ m) : ¬ (c :: m).getLast? = some '/' := by
  induction m generalizing c with
  | nil => simp [hc]
  | cons d t ih =>
      rw [List.getLast?_cons_cons]
      exact ih d (fun hd => hm (hd ▸ List.mem_cons_self d t))
        (fun ht => hm (List.mem_cons_of_mem d ht))

/-- Dropping one leading character keeps the last element of a non-empty
tail. -/
theorem getLast?_cons_of_ne_nil (c : Char) (l : List Char) (hl : ¬ l = []) :
    (c :: l).getLast? = l.getLast? := by
  cases l with
  | nil => exact absurd rfl hl
  | cons d t => exact List.getLast?_cons_cons

/-- Unfolding `pathJoin` to `pathJoinAux` on the data. -/
theorem pathJoin_data (a b : String) :
    (pathJoin a b).data = pathJoinAux a.data b.data := rfl

/-- Unfolding `dirname` to `dirnameAux` on the data. -/
theorem dirname_data (s : String) : (dirname s).data = dirnameAux s.data := rfl

/-- Character data of the Julia environment directory name `v<maj>.<min>`. -/
theorem envdirData (maj minor : String) :
    ("v" ++ maj ++ "." ++ minor).data = 'v' :: (maj.data ++ '.' :: minor.data) := by
  have e1 : ("v" : String).data = ['v'] := rfl
  have e2 : ("." : String).data = ['.'] := rfl
  simp [String.data_append, e1, e2]

/-- The environment directory name does not end in a slash when the minor
component has no slash. -/
theorem envdirLast (maj minor : String) (hm : '/' ∉ minor.data) :
    ¬ ("v" ++ maj ++ "." ++ minor).data.getLast? = some '/' := by
  rw [envdirData,
    show 'v' :: (maj.data ++ '.' :: minor.data)
        = ('v' :: maj.data) ++ '.' :: minor.data from rfl,
    List.getLast?_append_cons]
  exact getLastConsNeSlash '.' (by decide) minor.data hm

/-- The `Project.toml` path built by `prepare_step` is the literal relative
path `environments/v<maj>.<min>/Project.toml`. -/
theorem prepare_toml_eq (maj minor : String) (hm : '/' ∉ minor.data) :
    pathJoin (pathJoin "environments" ("v" ++ maj ++ "." ++ minor)) "Project.toml"
      = "environments/v" ++ maj ++ "." ++ minor ++ "/Project.toml" := by
  apply stringDataEq
  have hb1 : ¬ ("v" ++ maj ++ "." ++ minor).data.head? = some '/' := by
    rw [envdirData]
    simp
  have h1 : pathJoinAux ("environments" : String).data
        ("v" ++ maj ++ "." ++ minor).data
      = ("environments" : String).data ++ '/' :: ("v" ++ maj ++ "." ++ minor).data :=
    pathJoinAux_eq _ _ hb1 (by decide) (by decide)
  have hb2 : ¬ ("Project.toml" : String).data.head? = some '/' := by decide
  have ha2 : ¬ (("environments" : String).data
        ++ '/' :: ("v" ++ maj ++ "." ++ minor).data).getLast? = some '/' := by
    rw [List.getLast?_append_cons,
      getLast?_cons_of_ne_nil _ _ (by rw [envdirData]; simp)]
    exact envdirLast maj minor hm
  rw [pathJoin_data, pathJoin_data, h1,
    pathJoinAux_eq _ _ hb2 (by simp) ha2]
  have e1 : ("environments" : String).data
      = 'e' :: 'n' :: 'v' :: 'i' :: 'r' :: 'o' :: 'n' :: 'm' :: 'e' :: 'n' :: 't' :: 's' :: [] := rfl
  have e2 : ("environments/v" : String).data
      = 'e' :: 'n' :: 'v' :: 'i' :: 'r' :: 'o' :: 'n' :: 'm' :: 'e' :: 'n' :: 't' :: 's' :: '/' :: 'v' :: [] := rfl
  have e3 : ("." : String).data = ['.'] := rfl
  have e4 : ("/Project.toml" : String).data
      = '/' :: ("Project.toml" : String).data := rfl
  simp [String.data_append, e1, e2, e3, e4, envdirData, List.append_assoc]

/-- The directory created by `prepare_step` —
`dirname(join(installdir, <toml path>))` — is the environment directory
`environments/v<maj>.<min>` joined under the installation directory. -/
theorem prepare_envdir_eq (installdir maj minor : String) (hm : '/' ∉ minor.data)
    (hil : ¬ installdir.data.getLast? = some '/') :
    dirname (pathJoin installdir
        (pathJoin (pathJoin "environments" ("v" ++ maj ++ "." ++ minor))
          "Project.toml"))
      = pathJoin installdir ("environments/v" ++ maj ++ "." ++ minor) := by
  rw [prepare_toml_eq maj minor hm]
  apply stringDataEq
  rw [dirname_data, pathJoin_data, pathJoin_data]
  have e2 : ("environments/v" : String).data
      = 'e' :: ("nvironments/v" : String).data := rfl
  have e3 : ("." : String).data = ['.'] := rfl
  have hEdata : ("environments/v" ++ maj ++ "." ++ minor).data
      = ("environments/v" : String).data ++ (maj.data ++ '.' :: minor.data) := by
    simp [String.data_append, e3, List.append_assoc]
  have hEne : ¬ ("environments/v" ++ maj ++ "." ++ minor).data = [] := by
    rw [hEdata, e2]
    simp
  have hEhead : ¬ ("environments/v" ++ maj ++ "." ++ minor).data.head? = some '/' := by
    rw [hEdata, e2, List.cons_append]
    simp
  have hElast : ¬ ("environments/v" ++ maj ++ "." ++ minor).data.getLast? = some '/' := by
    rw [hEdata, ← List.append_assoc, List.getLast?_append_cons]
    exact getLastConsNeSlash '.' (by decide) minor.data hm
  have htoml : ("environments/v" ++ maj ++ "." ++ minor ++ "/Project.toml").data
      = ("environments/v" ++ maj ++ "." ++ minor).data
          ++ '/' :: ("Project.toml" : String).data := by
    rw [String.data_append]
  have htomlhead :
      ¬ ("environments/v" ++ maj ++ "." ++ minor ++ "/Project.toml").data.head?
        = some '/' := by
    rw [htoml, hEdata, e2, List.cons_append, List.cons_append]
    simp
  have hfP : '/' ∉ ("Project.toml" : String).data := by decide
  by_cases hid : installdir.data = []
  · rw [hid, pathJoinAux_nil _ htomlhead, pathJoinAux_nil _ hEhead, htoml]
    exact dirnameAux_app _ _ hfP hEne hElast
  · rw [pathJoinAux_eq _ _ htomlhead hid hil,
      pathJoinAux_eq _ _ hEhead hid hil, htoml,
      show installdir.data
            ++ '/' :: (("environments/v" ++ maj ++ "." ++ minor).data
                ++ '/' :: ("Project.toml" : String).data)
          = (installdir.data ++ '/' :: ("environments/v" ++ maj ++ "." ++ minor).data)
              ++ '/' :: ("Project.toml" : String).data
        from by simp [List.append_assoc]]
    apply dirnameAux_app _ _ hfP (by simp)
    rw [List.getLast?_append_cons, getLast?_cons_of_ne_nil _ _ hEne]
    exact hElast

/-- C9: `JuliaBundle.prepare_step` raises
`EasyBuildError("Julia not included as dependency!")` if and only if Julia
is not available as a dependency; with Julia available and a version of at
least two dot-separated components, it computes the project file
`environments/v<major>.<minor>/Project.toml` and creates the directory
`environments/v<major>.<minor>` under the installation directory. -/
theorem juliaBundle_prepare_step_spec (installdir : String) (root : Option String)
    (ver maj minor : String) (rest : List String)
    (hver : pySplitDot ver = maj :: minor :: rest)
    (hm : '/' ∉ minor.data)
    (hil : ¬ installdir.data.getLast? = some '/') :
    ((juliaBundle_prepare_step installdir root ver
        = Except.error "Julia not included as dependency!") ↔ root = none) ∧
    (∀ r, root = some r →
      juliaBundle_prepare_step installdir root ver
        = Except.ok
            { julia_project_toml :=
                "environments/v" ++ maj ++ "." ++ minor ++ "/Project.toml",
              julia_project_env :=
                pathJoin installdir ("environments/v" ++ maj ++ "." ++ minor) }) := by
  constructor
  · cases root with
    | none => simp [juliaBundle_prepare_step]
    | some r => simp [juliaBundle_prepare_step, hver]
  · intro r hr
    subst hr
    simp only [juliaBundle_prepare_step, reduceCtorEq, Bool.false_eq_true,
      if_false, hver]
    rw [prepare_envdir_eq installdir maj minor hm hil,
      prepare_toml_eq maj minor hm]

/-- Witness for C9 at Julia 1.9.3 under `/opt/jb`. -/
theorem juliaBundle_prepare_step_spec_witness :
    juliaBundle_prepare_step "/opt/jb" (some "/opt/julia") "1.9.3"
      = Except.ok
          { julia_project_toml :=
              "environments/v" ++ "1" ++ "." ++ "9" ++ "/Project.toml",
            julia_project_env :=
              pathJoin "/opt/jb" ("environments/v" ++ "1" ++ "." ++ "9") } :=
  (juliaBundle_prepare_step_spec "/opt/jb" (some "/opt/julia") "1.9.3" "1" "9" ["3"]
    rfl (by decide) (by decide)).2 "/opt/julia" rfl

/-- C6: `JuliaBundle.make_module_extra` produces the parent module text
extended, in order, by the Julia soft-initialization snippet for the
generator syntax (when that syntax is set), an `append_paths` of the
installation directory (the empty relative path) to `JULIA_DEPOT_PATH`, and
an `append_paths` of the relative path `environments/v<maj>.<min>/Project.toml`
computed by `prepare_step` to `JULIA_LOAD_PATH`. -/
theorem juliaBundle_make_module_extra_spec (parent : String) (syn : Option String)
    (softInit : String → String) (append_paths : String → List String → String)
    (installdir : String) (root : Option String) (ver maj minor : String)
    (rest : List String) (prep : JuliaPrepared)
    (hver : pySplitDot ver = maj :: minor :: rest)
    (hm : '/' ∉ minor.data)
    (hok : juliaBundle_prepare_step installdir root ver = Except.ok prep) :
    juliaBundle_make_module_extra parent syn softInit append_paths
        prep.julia_project_toml
      = parent
          ++ (if pyTruthy syn then softInit (syn.getD "") else "")
          ++ append_paths "JULIA_DEPOT_PATH" [""]
          ++ append_paths "JULIA_LOAD_PATH"
               ["environments/v" ++ maj ++ "." ++ minor ++ "/Project.toml"] := by
  obtain ⟨r, hr⟩ : ∃ r, root = some r := by
    cases root with
    | none => simp [juliaBundle_prepare_step] at hok
    | some r => exact ⟨r, rfl⟩
  subst hr
  have htoml : prep.julia_project_toml
      = pathJoin (pathJoin "environments" ("v" ++ maj ++ "." ++ minor))
          "Project.toml" := by
    simp only [juliaBundle_prepare_step, reduceCtorEq, Bool.false_eq_true,
      if_false, hver, Except.ok.injEq] at hok
    rw [← hok]
  rw [htoml, prepare_toml_eq maj minor hm]
  by_cases hsyn : pyTruthy syn <;>
    simp [juliaBundle_make_module_extra, hsyn, String.append_assoc,
      String.append_empty]

/-- Witness for C6 with a concrete generator, parent text and Julia 1.9.3. -/
theorem juliaBundle_make_module_extra_spec_witness :
    juliaBundle_make_module_extra "PARENT;" (some "Lua")
        (fun s => "soft(" ++ s ++ ")")
        (fun v ps => "append(" ++ v ++ "," ++ String.join ps ++ ")")
        (JuliaPrepared.mk "environments/v1.9/Project.toml"
          "/opt/jb/environments/v1.9").julia_project_toml
      = "PARENT;"
          ++ (if pyTruthy (some "Lua") then
                (fun s => "soft(" ++ s ++ ")") ((some "Lua").getD "")
              else "")
          ++ (fun v ps => "append(" ++ v ++ "," ++ String.join ps ++ ")")
               "JULIA_DEPOT_PATH" [""]
          ++ (fun v ps => "append(" ++ v ++ "," ++ String.join ps ++ ")")
               "JULIA_LOAD_PATH"
               ["environments/v" ++ "1" ++ "." ++ "9" ++ "/Project.toml"] :=
  juliaBundle_make_module_extra_spec "PARENT;" (some "Lua")
    (fun s => "soft(" ++ s ++ ")")
    (fun v ps => "append(" ++ v ++ "," ++ String.join ps ++ ")")
    "/opt/jb" (some "/opt/julia") "1.9.3" "1" "9" ["3"]
    (JuliaPrepared.mk "environments/v1.9/Project.toml" "/opt/jb/environments/v1.9")
    rfl (by decide) rfl

end EasyBlocks
